import Mathlib

/-!
Verification development for the smb2fs remote-filesystem operation layer
(`src/main.c`, `src/marshalling.h`, `src/smb2fs.h`).

The source is shallowly embedded: each C function whose behaviour the claims
depend on is translated into an executable Lean definition.  External
collaborators (the libsmb2 protocol client, the interactive prompts) are
modelled by scripts: lists of the successive results those calls return
during one run.  Machine integers are modelled as `Nat`/`Int` with explicit
`%` where C truncation matters.
-/

namespace Smb2fs

/-! ## Constants

Error codes (newlib/Linux values) returned negated by the operations, and the
wire-level constants from `marshalling.h` and `main.c`. -/

def ENODEV : Int := 19
def Eio : Int := 5  -- EIO
def EINVAL : Int := 22
def ENOENT : Int := 2
def ENOMEM : Int := 12
def EROFS : Int := 30

/-- NT status 0xC0000120 reinterpreted as a signed 32-bit `int`, the value
`r2` carries when the transport cancelled the operation
(`SMB2_STATUS_CANCELLED` in `main.c`). -/
def SMB2_STATUS_CANCELLED : Int := -1073741536

/-- `#define INCARNATION_BITS 10` from `marshalling.h`. -/
def INCARNATION_BITS : Nat := 10

/-- `#define INDEX_BITS 22` from `marshalling.h`. -/
def INDEX_BITS : Nat := 22

/-- `#define MAX_INDEX ((1 << INDEX_BITS) - 1)` from `marshalling.h`. -/
def MAX_INDEX : Nat := 2 ^ INDEX_BITS - 1

/-! ## Pointer-handle registry

`marshalling.h` declares the registry type, the handle layout constants and
the five operations, but the implementing translation unit (`marshalling.c`)
is not part of the sources under `src/`.  The operations below are therefore
modelled from the spec (§3 and §4.1): a growable slot array with a free-index
list, a fixed incarnation, handles encoded as
`(incarnation << INDEX_BITS) | (index + 1)` on a 32-bit integer, `0` reserved
as "no handle".  Resource references (`void *`) are modelled as `Nat` ids.
Capacity (`GROWSIZE` increments) is an allocation detail with no observable
effect on resolution and is abstracted to the index ceiling check. -/

structure PHRegistry where
  pointers : List (Option Nat)
  incarnation : Nat
  freeList : List Nat
deriving DecidableEq

/-- Modelled from the spec: handle encoding
`(incarnation << INDEX_BITS) | (index + 1)` computed on `uint32_t`.
Since `index + 1 ≤ MAX_INDEX < 2 ^ INDEX_BITS`, the bitwise or coincides with
addition on disjoint bit ranges, and the `uint32_t` truncation keeps exactly
the low `INCARNATION_BITS` bits of the incarnation (see `mkHandle_eq_or`). -/
def mkHandle (inc idx : Nat) : Nat :=
  (inc % 2 ^ INCARNATION_BITS) * 2 ^ INDEX_BITS + (idx + 1)

/-- Low `INDEX_BITS` bits of a handle: `handle & MAX_INDEX`, the
`index + 1` field. -/
def handleIndex1 (h : Nat) : Nat := h % 2 ^ INDEX_BITS

/-- High bits of a handle: `handle >> INDEX_BITS`, the incarnation field. -/
def handleInc (h : Nat) : Nat := h / 2 ^ INDEX_BITS

/-- Modelled from the spec: `HandleToPointer` (resolve).  Decodes incarnation
and index; an incarnation mismatch, an out-of-range index or an empty slot
yields no reference.  Handle `0` decodes to `index + 1 = 0` and always
fails. -/
def HandleToPointer (r : PHRegistry) (h : Nat) : Option Nat :=
  if handleIndex1 h = 0 then none
  else if handleInc h ≠ r.incarnation % 2 ^ INCARNATION_BITS then none
  else
    match r.pointers[handleIndex1 h - 1]? with
    | some (some p) => some p
    | _ => none

/-- Modelled from the spec: `AllocateHandleForPointer`.  Pops a free index if
available, else appends a slot; fails (`0` in C, `none` here) when the index
ceiling would be exceeded.  Returns the handle and the updated registry. -/
def AllocateHandleForPointer (r : PHRegistry) (p : Nat) :
    Option (Nat × PHRegistry) :=
  match r.freeList with
  | i :: rest =>
      some (mkHandle r.incarnation i,
            { r with pointers := r.pointers.set i (some p), freeList := rest })
  | [] =>
      if r.pointers.length + 1 ≤ MAX_INDEX then
        some (mkHandle r.incarnation r.pointers.length,
              { r with pointers := r.pointers ++ [some p] })
      else none

/-- Modelled from the spec: `RemoveHandle` (release).  Marks the slot empty
and pushes its index on the free list; a handle that does not resolve
(wrong incarnation, out of range, already-freed slot) is rejected and the
registry is unchanged. -/
def RemoveHandle (r : PHRegistry) (h : Nat) : PHRegistry :=
  match HandleToPointer r h with
  | none => r
  | some _ =>
      { r with pointers := r.pointers.set (handleIndex1 h - 1) none,
               freeList := (handleIndex1 h - 1) :: r.freeList }

/-- One client-visible registry operation. -/
inductive RegOp
  | alloc (p : Nat)
  | release (h : Nat)
deriving DecidableEq

/-- Apply one registry operation (a failed allocation leaves the registry
unchanged, as in C where only `0` is returned). -/
def applyOp (r : PHRegistry) : RegOp → PHRegistry
  | .alloc p =>
      match AllocateHandleForPointer r p with
      | some (_, r') => r'
      | none => r
  | .release h => RemoveHandle r h

/-- Apply a sequence of registry operations. -/
def applyOps (r : PHRegistry) (ops : List RegOp) : PHRegistry :=
  ops.foldl applyOp r

/-- Well-formedness of a registry: the slot array respects the index
ceiling, and the free list holds distinct in-range indices of empty slots. -/
def WF (r : PHRegistry) : Prop :=
  r.pointers.length ≤ MAX_INDEX ∧
  (∀ i ∈ r.freeList, i < r.pointers.length) ∧
  (∀ i ∈ r.freeList, r.pointers[i]? = some none) ∧
  r.freeList.Nodup

instance (r : PHRegistry) : Decidable (WF r) := by
  unfold WF; infer_instance

/-! ## Subtree-restriction path normalizer

`smb2fs_init` (main.c lines 359-407) normalizes `url->path` segment by
segment with `SplitName`: empty and `.` segments are dropped; on `..` the
buffer is truncated at its last `/` when it contains one, otherwise control
falls through and the `..` segment is appended like an ordinary name.

Paths are modelled as `List Char` (C strings); `splitSlash` is the effect of
the `SplitName(patharg, '/', ...)` loop, producing every `/`-separated
segment in order. -/

def splitSlash : List Char → List (List Char)
  | [] => [[]]
  | c :: rest =>
      if c = '/' then [] :: splitSlash rest
      else
        match splitSlash rest with
        | [] => [[c]]
        | s :: ss => (c :: s) :: ss

/-- One step of the `smb2fs_init` normalization loop, on the list of
components of the path buffer (`pathbuf` is the `/`-prefixed join of `acc`;
truncating at the last `/` drops the last component, `strlcat` appends
one). -/
def normStep (acc : List (List Char)) (seg : List Char) : List (List Char) :=
  if seg = [] then acc
  else if seg = ['.'] then acc
  else if seg = ['.', '.'] then
    if acc = [] then acc ++ [seg] else acc.dropLast
  else acc ++ [seg]

/-- Components of the normalized subtree-restriction path for a given
`url->path`. -/
def normalizeSegs (p : List Char) : List (List Char) :=
  (splitSlash p).foldl normStep []

/-- `fsd->rootdir` computed by `smb2fs_init`: absent when `url->path` is
empty or normalizes back to the share root, else the components each
prefixed by `/`. -/
def rootdirOf (p : List Char) : Option (List Char) :=
  if p = [] then none
  else
    match normalizeSegs p with
    | [] => none
    | segs => some (segs.foldl (fun acc s => acc ++ '/' :: s) [])

/-! ## Session, configuration and global state

`main.c` keeps one session per process: the singleton `struct smb2fs *fsd`,
the incarnation counter `phr_incarnation` and the configuration flags
`cfg_reconnect_req` / `cfg_handles_rcv` read from the mount arguments.
The `smb2_context` itself is external; a live `FS` value stands for a live
connected context. -/

/-- Mount configuration, from the startup arguments (and the parsed URL),
which are retained for the whole process lifetime in
`smb2fs_mount_data`. -/
structure Config where
  reconnect : Bool
  handlesRcv : Bool
  readonly : Bool
  urlPath : List Char
deriving DecidableEq

/-- `struct smb2fs`: the per-session data (`fsd`).  The `smb2_context`
pointer and `connected` flag are external connection mechanics; a present
`FS` models a connected session. -/
structure FS where
  phr : PHRegistry
  rdonly : Bool
  rootdir : Option (List Char)
deriving DecidableEq

/-- Process-global mutable state: the `fsd` singleton and the
`phr_incarnation` counter. -/
structure Glob where
  fsd : Option FS
  incCounter : Nat
deriving DecidableEq

/-- Externally observable calls made during a run (the interactive prompts,
connection attempts, and protocol-client calls the claims talk about). -/
inductive AccMode
  | rdwr
  | rdonly
deriving DecidableEq

inductive Ev
  | prompt
  | initAtt
  | lseekC (ref : Nat)
  | readC (ref : Nat) (count : Nat)
  | writeC (ref : Nat) (count : Nat)
  | openC (path : List Char) (mode : AccMode)
  | drain
deriving DecidableEq

/-- Model state threaded through every operation: the global state, the
scripts of outstanding answers from the reconnect prompt
(`request_reconnect`) and from session establishment (`smb2fs_init`'s
connection mechanics, abstracted to success/failure), and the event log. -/
structure MState where
  g : Glob
  prompts : List Bool
  inits : List Bool
  log : List Ev
deriving DecidableEq

def logEv (st : MState) (e : Ev) : MState :=
  { st with log := st.log ++ [e] }

/-- State effect of a successful `smb2fs_init(NULL)`: a fresh `fsd` whose
registry is empty and tagged `AllocateNewRegistry(phr_incarnation++)`, the
read-only flag from `ARG_READONLY`, and the subtree restriction normalized
from `url->path`.  The connection handshake itself is external (scripted by
`MState.inits`). -/
def initEffect (cfg : Config) (g : Glob) : Glob :=
  { fsd := some { phr := { pointers := [], incarnation := g.incCounter,
                           freeList := [] },
                  rdonly := cfg.readonly,
                  rootdir := rootdirOf cfg.urlPath },
    incCounter := g.incCounter + 1 }

/-- The `while(request_reconnect(last_server)) { if(smb2fs_init(NULL)) ... }`
loop at the end of `handle_connection_fault`.  Each prompt answer is consumed
in order; an accepted prompt consumes one init attempt (a failed attempt has
still incremented `phr_incarnation`); an exhausted prompt script reads as the
user declining.  Returns (recovered?, global state, remaining scripts,
log). -/
def reconnectLoop (cfg : Config) (g : Glob) :
    List Bool → List Bool → List Ev →
    Bool × Glob × List Bool × List Bool × List Ev
  | [], inits, log => (false, g, [], inits, log)
  | p :: ps, inits, log =>
      let log := log ++ [Ev.prompt]
      if p then
        match inits with
        | [] => (false, g, ps, [], log)
        | i :: is =>
            let log := log ++ [Ev.initAtt]
            if i then (true, initEffect cfg g, ps, is, log)
            else reconnectLoop cfg { g with incCounter := g.incCounter + 1 }
                   ps is log
      else (false, g, ps, inits, log)

/-- `handle_connection_fault` (main.c lines 507-534): destroy the
`smb2_context`, free `rootdir` and the `fsd` singleton (the registry
reference is discarded with it), then — only when `RECONNECTREQ` was given —
prompt-and-reinit until the user declines.  Returns `true` when a fresh
session is in place. -/
def handleConnectionFault (cfg : Config) (st : MState) : Bool × MState :=
  let g : Glob := { st.g with fsd := none }
  if cfg.reconnect then
    let r := reconnectLoop cfg g st.prompts st.inits st.log
    (r.1, { g := r.2.1, prompts := r.2.2.1, inits := r.2.2.2.1,
            log := r.2.2.2.2 })
  else
    (false, { st with g := g })

/-- The `if (fsd == NULL)` entry block shared by every operation except
`statfs`: with `RECONNECTREQ`, one reconnect prompt gated before one init
attempt; without it, exactly one implicit init attempt and no prompt.
Returns `some code` for an early `-ENODEV` return, `none` to proceed. -/
def opEntry (cfg : Config) (st : MState) : Option Int × MState :=
  match st.g.fsd with
  | some _ => (none, st)
  | none =>
      if cfg.reconnect then
        match st.prompts with
        | [] => (some (-ENODEV), st)
        | p :: ps =>
            let st := logEv { st with prompts := ps } Ev.prompt
            if p then
              match st.inits with
              | [] => (some (-ENODEV), st)
              | i :: is =>
                  let st := logEv { st with inits := is } Ev.initAtt
                  if i then (none, { st with g := initEffect cfg st.g })
                  else (some (-ENODEV), st)
            else (some (-ENODEV), st)
      else
        match st.inits with
        | [] => (some (-ENODEV), st)
        | i :: is =>
            let st := logEv { st with inits := is } Ev.initAtt
            if i then (none, { st with g := initEffect cfg st.g })
            else (some (-ENODEV), st)

/-- Effective remote path: prefix `fsd->rootdir` when set, then drop one
initial `/` (main.c's `if (path[0] == '/') path++`). -/
def effPath (fs : FS) (p : List Char) : List Char :=
  let q := fs.rootdir.getD [] ++ p
  match q with
  | '/' :: rest => rest
  | _ => q

/-- Outcome of one modelled operation: a returned code, or the result
script ran out (the run needs a longer script, never reached by the
theorems below). -/
inductive PathOpOut
  | ret (code : Int) (st : MState)
  | retFh (code : Int) (fh : Nat) (st : MState)
  | outOfScript (st : MState)
deriving DecidableEq

/-- The retry loop shared by the integer-result path operations
(`smb2fs_getattr`, `fgetattr`, `mkdir`, `truncate`, `unlink`, `rmdir`,
`readlink`, `rename`, `statfs`):

    do {
      rc = smb2_xxx(...);
      if (rc < -1)      return rc;
      else if (rc < 0)  if (!handle_connection_fault()) return -ENODEV;
    } while (rc < 0);
    return 0;

`rcs` scripts the successive results of the remote call. -/
def pathOpLoop (cfg : Config) (st : MState) : List Int → PathOpOut
  | [] => .outOfScript st
  | rc :: rest =>
      if rc < -1 then .ret rc st
      else if rc < 0 then
        let r := handleConnectionFault cfg st
        if r.1 then pathOpLoop cfg r.2 rest else .ret (-ENODEV) r.2
      else .ret 0 st

/-- Replace the registry of the current session. -/
def setPhr (st : MState) (fs : FS) (phr : PHRegistry) : MState :=
  { st with g := { st.g with fsd := some { fs with phr := phr } } }

/-- `smb2fs_statfs` (main.c lines 537-616): the one operation that never
re-initializes — a missing session returns `-ENODEV` at once, otherwise the
standard retry loop runs on `smb2_statvfs`. -/
def statfsModel (cfg : Config) (st : MState) (rcs : List Int) : PathOpOut :=
  match st.g.fsd with
  | none => .ret (-ENODEV) st
  | some _ => pathOpLoop cfg st rcs

/-- `smb2fs_getattr` (main.c lines 648-693): the entry block, then the
standard retry loop on `smb2_stat`. -/
def getattrModel (cfg : Config) (st : MState) (rcs : List Int) : PathOpOut :=
  let e := opEntry cfg st
  match e.1 with
  | some c => .ret c e.2
  | none => pathOpLoop cfg e.2 rcs

/-! ## `smb2fs_open` -/

/-- Outcome of the `smb2fs_open` model: return code, the handle stored into
`fi->fh` when one was (`none` means `fi->fh` was left untouched), the state,
and the unconsumed open script. -/
inductive OpenOut
  | ret (code : Int) (fh : Option Nat) (st : MState)
      (opens : List (Option Nat × Int))
  | outOfScript (st : MState)
deriving DecidableEq

/-- The `for (;;)` / `do ... while` core of `smb2fs_open` (main.c lines
937-971): each `smb2_open_r2` call yields `(smb2fh pointer, r2)`;
`r2 == -1 || r2 == SMB2_STATUS_CANCELLED` drives the fault path and the open
is retried; otherwise a non-null pointer is registered into `fi->fh`
(`-ENOMEM` if allocation fails), and a null pointer degrades `O_RDWR` to
`O_RDONLY` once before failing with `-ENOENT`. -/
def openCore (cfg : Config) (path : List Char) (st : MState) (mode : AccMode) :
    List (Option Nat × Int) → OpenOut
  | [] => .outOfScript st
  | (fh, r2) :: rest =>
      let st := logEv st (.openC path mode)
      if r2 = -1 ∨ r2 = SMB2_STATUS_CANCELLED then
        let r := handleConnectionFault cfg st
        if r.1 then openCore cfg path r.2 mode rest
        else .ret (-ENODEV) none r.2 rest
      else
        match fh with
        | some p =>
            match st.g.fsd with
            | none => .outOfScript st
            | some fs =>
                match AllocateHandleForPointer fs.phr p with
                | none => .ret (-ENOMEM) none st rest
                | some (h, phr') => .ret 0 (some h) (setPhr st fs phr') rest
        | none =>
            match mode with
            | .rdwr => openCore cfg path st AccMode.rdonly rest
            | .rdonly => .ret (-ENOENT) none st rest

/-- `smb2fs_open` (main.c lines 907-972): entry block, initial access mode
`O_RDONLY` on a read-only mount and `O_RDWR` otherwise, then the open
loop on the effective path. -/
def openModel (cfg : Config) (path : List Char) (st : MState)
    (opens : List (Option Nat × Int)) : OpenOut :=
  let e := opEntry cfg st
  match e.1 with
  | some c => .ret c none e.2 opens
  | none =>
      match e.2.g.fsd with
      | none => .outOfScript e.2
      | some fs =>
          let mode := if fs.rdonly then AccMode.rdonly else AccMode.rdwr
          openCore cfg (effPath fs path) e.2 mode opens

/-! ## Streaming read and write

`smb2fs_read` (main.c lines 1062-1192) and `smb2fs_write` (lines 1194-1362).
The per-call transfer state mirrors the C locals.  The keep-alive timer
(`last_echo` / `smb2_echo` every 20 s) is real-time behaviour outside the
shallow embedding and is not modelled; it has no effect on the counters,
results or handles.  Buffer contents are not modelled (only byte counts). -/

/-- Service/drain batching step, after each successful I/O unit
(`service_counter++`, `bytes_since_service += rc`, drain and reset both when
`service_counter >= 4 || bytes_since_service >= 262144`).  Returns
(drained?, new unit counter, new byte counter). -/
def serviceStep (sc bytes n : Nat) : Bool × Nat × Nat :=
  if 4 ≤ sc + 1 ∨ 262144 ≤ bytes + n then (true, 0, 0)
  else (false, sc + 1, bytes + n)

def INITIAL_CHUNK : Nat := 65536

def SUCCESS_THRESHOLD : Nat := 4

/-- Adaptive chunk step after a successful write (`success_count++`; at the
threshold, double the chunk capped by the negotiated maximum and reset).
Returns (new chunk size, new success counter). -/
def chunkStep (maxW chunk scnt : Nat) : Nat × Nat :=
  if SUCCESS_THRESHOLD ≤ scnt + 1 then (min (chunk * 2) maxW, 0)
  else (chunk, scnt + 1)

/-- The chunk size `smb2fs_write` starts each call with: 64 KiB capped at
the negotiated maximum write size. -/
def writeInitChunk (maxW : Nat) : Nat := min INITIAL_CHUNK maxW

/-- Local state of one read call: `fi->fh`, the `smb2fh` pointer resolved
before the loop (`localRef`), the remaining request (`size`), byte count
(`result`), batching counters, and the last remote return code (`rc`). -/
structure RdState where
  fiFh : Nat
  localRef : Nat
  size : Nat
  result : Int
  sc : Nat
  bytes : Nat
  rc : Int
deriving DecidableEq

inductive RdOut
  | fatal (code : Int) (st : MState)
  | done (st : MState) (rw : RdState) (opens : List (Option Nat × Int))
      (reads : List Int)
  | outOfScript (st : MState) (rw : RdState)
deriving DecidableEq

/-- The `while (size > 0)` loop of `smb2fs_read`.  Each iteration consumes
one scripted `smb2_read` result:
`rc == 0` breaks; `rc < -1` is returned verbatim; `rc == -1` runs the fault
path and, with handle recovery on, `smb2fs_open(path, fi)` — the new handle
lands in `fi->fh` but the loop keeps the previously resolved `localRef`, and
the negative `rc` falls through into `result += rc; size -= rc` (on `size_t`,
`size` grows by one); `rc > 0` runs the batching step and advances the
transfer. -/
def innerRead (cfg : Config) (path : List Char) (maxRead : Nat) (st : MState)
    (rw : RdState) (opens : List (Option Nat × Int)) (reads : List Int) :
    RdOut :=
  if rw.size = 0 then .done st rw opens reads
  else
    match reads with
    | [] => .outOfScript st rw
    | rc :: rest =>
            let st := logEv st (.readC rw.localRef (min rw.size maxRead))
            if rc = 0 then .done st { rw with rc := 0 } opens rest
            else if rc < -1 then .fatal rc st
            else if rc < 0 then
              let r := handleConnectionFault cfg st
              if r.1 then
                if cfg.handlesRcv then
                  match openModel cfg path r.2 opens with
                  | .outOfScript st' => .outOfScript st' rw
                  | .ret code fh st' opens' =>
                      if code < 0 then .fatal (-Eio) st'
                      else
                        innerRead cfg path maxRead st'
                          { rw with fiFh := fh.getD rw.fiFh,
                                    result := rw.result + rc,
                                    size := rw.size + 1, rc := rc }
                          opens' rest
                else .fatal (-Eio) r.2
              else .fatal (-ENODEV) r.2
            else
              let t := serviceStep rw.sc rw.bytes rc.toNat
              let st := if t.1 then logEv st .drain else st
              innerRead cfg path maxRead st
                { rw with result := rw.result + rc,
                          size := rw.size - rc.toNat,
                          sc := t.2.1, bytes := t.2.2, rc := rc }
                opens rest

/-- Result of a full read/write call: an early return from inside the loop
(skipping the final drain), a return through the end of the
`do ... while (rc < 0)` body (after the final drain), or an exhausted
script. -/
inductive RWTop
  | early (code : Int) (st : MState)
  | normal (code : Int) (st : MState) (fiFh : Nat)
  | stuck (st : MState)
deriving DecidableEq

/-- The outer `do { resolve; lseek; while...; final drain } while (rc < 0)`
of `smb2fs_read`.  `fuel` bounds the do-while iterations (the loop body
cannot in fact exit with `rc < 0`, see `innerRead_done_rc_nonneg`). -/
def readOuter (cfg : Config) (path : List Char) (maxRead : Nat) :
    Nat → MState → Nat → Nat → List Int → List (Option Nat × Int) →
    List Int → RWTop
  | 0, st, _, _, _, _, _ => .stuck st
  | fuel + 1, st, fiFh, size, lseeks, opens, reads =>
      match st.g.fsd with
      | none => .stuck st
      | some fs =>
          match HandleToPointer fs.phr fiFh with
          | none => .early (-EINVAL) st
          | some ref =>
              match lseeks with
              | [] => .stuck st
              | lk :: lrest =>
                  let st := logEv st (.lseekC ref)
                  if lk < 0 then .early lk st
                  else
                    match innerRead cfg path maxRead st
                        ⟨fiFh, ref, size, 0, 0, 0, 0⟩ opens reads with
                    | .fatal c st' => .early c st'
                    | .outOfScript st' _ => .stuck st'
                    | .done st' rw opens' reads' =>
                        let st' := logEv st' .drain
                        if rw.rc < 0 then
                          readOuter cfg path maxRead fuel st' rw.fiFh rw.size
                            lrest opens' reads'
                        else .normal rw.result st' rw.fiFh

/-- Entry block of `smb2fs_read` / `smb2fs_write`: the shared session check,
plus — when the session had to be re-established and handle recovery is on —
an immediate `smb2fs_open(path, fi)` whose failure is reported as `-EIO`. -/
inductive EntryOut
  | go (st : MState) (fiFh : Nat) (opens : List (Option Nat × Int))
  | fail (code : Int) (st : MState)
  | stuck (st : MState)
deriving DecidableEq

def rwEntry (cfg : Config) (path : List Char) (st : MState) (fiFh : Nat)
    (opens : List (Option Nat × Int)) : EntryOut :=
  match st.g.fsd with
  | some _ => .go st fiFh opens
  | none =>
      let e := opEntry cfg st
      match e.1 with
      | some c => .fail c e.2
      | none =>
          if cfg.handlesRcv then
            match openModel cfg path e.2 opens with
            | .outOfScript st' => .stuck st'
            | .ret code fh st' opens' =>
                if code < 0 then .fail (-Eio) st'
                else .go st' (fh.getD fiFh) opens'
          else .go e.2 fiFh opens

/-- `smb2fs_read`: entry block, then the outer loop.  One unit of fuel per
scripted read result plus one is always sufficient. -/
def readModel (cfg : Config) (path : List Char) (maxRead : Nat) (st : MState)
    (fiFh : Nat) (size : Nat) (lseeks : List Int)
    (opens : List (Option Nat × Int)) (reads : List Int) : RWTop :=
  match rwEntry cfg path st fiFh opens with
  | .fail c st' => .early c st'
  | .stuck st' => .stuck st'
  | .go st' fiFh' opens' =>
      readOuter cfg path maxRead (reads.length + 1) st' fiFh' size lseeks
        opens' reads

/-- Local state of one write call: as for read, plus the adaptive chunk size
and consecutive-success counter. -/
structure WrState where
  fiFh : Nat
  localRef : Nat
  size : Nat
  result : Int
  sc : Nat
  bytes : Nat
  rc : Int
  chunk : Nat
  scnt : Nat
deriving DecidableEq

inductive WrOut
  | fatal (code : Int) (st : MState)
  | done (st : MState) (rw : WrState) (opens : List (Option Nat × Int))
      (writes : List Int)
  | outOfScript (st : MState) (rw : WrState)
deriving DecidableEq

/-- The `while (size > 0)` loop of `smb2fs_write`.  Unlike the read loop,
there is no `rc == 0` break and no verbatim return for `rc < -1`: every
negative `smb2_write` result takes the fault path.  A successful write runs
the batching step and then the chunk-growth step; a failed write leaves
`chunk` and `scnt` untouched and falls through into
`result += rc; size -= rc`. -/
def innerWrite (cfg : Config) (path : List Char) (maxW : Nat) (st : MState)
    (rw : WrState) (opens : List (Option Nat × Int)) (writes : List Int) :
    WrOut :=
  if rw.size = 0 then .done st rw opens writes
  else
    match writes with
    | [] => .outOfScript st rw
    | rc :: rest =>
            let st := logEv st (.writeC rw.localRef (min rw.size rw.chunk))
            if rc < 0 then
              let r := handleConnectionFault cfg st
              if r.1 then
                if cfg.handlesRcv then
                  match openModel cfg path r.2 opens with
                  | .outOfScript st' => .outOfScript st' rw
                  | .ret code fh st' opens' =>
                      if code < 0 then .fatal (-Eio) st'
                      else
                        innerWrite cfg path maxW st'
                          { rw with fiFh := fh.getD rw.fiFh,
                                    result := rw.result + rc,
                                    size := rw.size + 1, rc := rc }
                          opens' rest
                else .fatal (-Eio) r.2
              else .fatal (-ENODEV) r.2
            else if rc = 0 then
              innerWrite cfg path maxW st { rw with rc := 0 } opens rest
            else
              let t := serviceStep rw.sc rw.bytes rc.toNat
              let st := if t.1 then logEv st .drain else st
              let c := chunkStep maxW rw.chunk rw.scnt
              innerWrite cfg path maxW st
                { rw with result := rw.result + rc,
                          size := rw.size - rc.toNat,
                          sc := t.2.1, bytes := t.2.2, rc := rc,
                          chunk := c.1, scnt := c.2 }
                opens rest

/-- The outer do-while of `smb2fs_write`: resolve, lseek, the socket-fd
validation (`smb2_get_fd` must be a real socket, scripted by `sockOk`),
the inner loop, the final drain. -/
def writeOuter (cfg : Config) (path : List Char) (maxW : Nat) (sockOk : Bool) :
    Nat → MState → Nat → Nat → List Int → List (Option Nat × Int) →
    List Int → RWTop
  | 0, st, _, _, _, _, _ => .stuck st
  | fuel + 1, st, fiFh, size, lseeks, opens, writes =>
      match st.g.fsd with
      | none => .stuck st
      | some fs =>
          match HandleToPointer fs.phr fiFh with
          | none => .early (-EINVAL) st
          | some ref =>
              match lseeks with
              | [] => .stuck st
              | lk :: lrest =>
                  let st := logEv st (.lseekC ref)
                  if lk < 0 then .early lk st
                  else if ¬ sockOk then .early (-ENODEV) st
                  else
                    match innerWrite cfg path maxW st
                        ⟨fiFh, ref, size, 0, 0, 0, 0,
                         writeInitChunk maxW, 0⟩ opens writes with
                    | .fatal c st' => .early c st'
                    | .outOfScript st' _ => .stuck st'
                    | .done st' rw opens' writes' =>
                        let st' := logEv st' .drain
                        if rw.rc < 0 then
                          writeOuter cfg path maxW sockOk fuel st' rw.fiFh
                            rw.size lrest opens' writes'
                        else .normal rw.result st' rw.fiFh

/-- `smb2fs_write`: entry block, the `-EROFS` check on a read-only mount,
then the outer loop. -/
def writeModel (cfg : Config) (path : List Char) (maxW : Nat) (sockOk : Bool)
    (st : MState) (fiFh : Nat) (size : Nat) (lseeks : List Int)
    (opens : List (Option Nat × Int)) (writes : List Int) : RWTop :=
  match rwEntry cfg path st fiFh opens with
  | .fail c st' => .early c st'
  | .stuck st' => .stuck st'
  | .go st' fiFh' opens' =>
      match st'.g.fsd with
      | none => .stuck st'
      | some fs =>
          if fs.rdonly then .early (-EROFS) st'
          else
            writeOuter cfg path maxW sockOk (writes.length + 1) st' fiFh'
              size lseeks opens' writes

/-! ## Concrete fixtures used by witnesses and counterexamples -/

/-- Reconnect and handle recovery both enabled. -/
def cfgRec : Config := ⟨true, true, false, []⟩

/-- Reconnect enabled, handle recovery disabled (`NOHANDLESRCV`). -/
def cfgNoRcv : Config := ⟨true, false, false, []⟩

/-- Reconnect disabled (no `RECONNECTREQ`), handle recovery enabled. -/
def cfgNoRec : Config := ⟨false, true, false, []⟩

def reg1 : PHRegistry := ⟨[some 5], 1, []⟩

def fs1 : FS := ⟨reg1, false, none⟩

def st1 : MState := ⟨⟨some fs1, 2⟩, [true], [true], []⟩

def stNone : MState := ⟨⟨none, 5⟩, [true], [true], []⟩

/-- Session whose registry holds reference `7` at index 0, incarnation 1. -/
def reg3 : PHRegistry := ⟨[some 7], 1, []⟩

def fs3 : FS := ⟨reg3, false, none⟩

def st3 : MState := ⟨⟨some fs3, 2⟩, [true], [true], []⟩

/-- Session after a reconnect: fresh empty registry with incarnation 2. -/
def fs6 : FS := ⟨⟨[], 2, []⟩, false, none⟩

def st6 : MState := ⟨⟨some fs6, 3⟩, [true], [true], []⟩

/-- Event log of the concrete faulting read run of claim C3: one read with
the originally resolved reference 7, the fault recovery, the re-open — and
then three more reads still issued with reference 7, never with the newly
opened reference 9. -/
def log3 : List Ev :=
  [Ev.lseekC 7, Ev.readC 7 1, Ev.prompt, Ev.initAtt,
   Ev.openC ['f'] AccMode.rdwr, Ev.readC 7 1, Ev.readC 7 1, Ev.readC 7 1,
   Ev.drain]

/-- Final model state of that run: reconnected session, reference 9
registered in the incarnation-2 registry, all scripts consumed. -/
def st3' : MState := ⟨⟨some ⟨⟨[some 9], 2, []⟩, false, none⟩, 3⟩, [], [], log3⟩

/-- Model state after the in-flight fault of a one-chunk write is recovered
and the file re-opened (reference 9, incarnation-2 registry). -/
def st7' (chunk : Nat) : MState :=
  ⟨⟨some ⟨⟨[some 9], 2, []⟩, false, none⟩, 3⟩, [], [],
   [Ev.writeC 7 (min 1 chunk), Ev.prompt, Ev.initAtt,
    Ev.openC ['f'] AccMode.rdwr]⟩

/-- Model state after the in-flight fault of a read is recovered under
`NOHANDLESRCV` (the `-EIO` return point). -/
def st6w : MState :=
  ⟨⟨some fs6, 3⟩, [], [], [Ev.readC 7 1, Ev.prompt, Ev.initAtt]⟩

/-- Final state of a fault-free one-chunk read of `st3`: the log ends with
the final drain. -/
def st8' : MState :=
  ⟨⟨some fs3, 2⟩, [true], [true], [Ev.lseekC 7, Ev.readC 7 1, Ev.drain]⟩

/-! # Theorems -/

/-! ## Handle-registry lemmas -/

theorem mkHandle_ne_zero (inc idx : Nat) : mkHandle inc idx ≠ 0 := by
  unfold mkHandle INCARNATION_BITS INDEX_BITS
  omega

theorem handleIndex1_mkHandle (inc idx : Nat) (h : idx + 1 ≤ MAX_INDEX) :
    handleIndex1 (mkHandle inc idx) = idx + 1 := by
  unfold handleIndex1 mkHandle MAX_INDEX INCARNATION_BITS INDEX_BITS at *
  omega

theorem handleInc_mkHandle (inc idx : Nat) (h : idx + 1 ≤ MAX_INDEX) :
    handleInc (mkHandle inc idx) = inc % 2 ^ INCARNATION_BITS := by
  unfold handleInc mkHandle MAX_INDEX INCARNATION_BITS INDEX_BITS at *
  omega

/-- The arithmetic handle encoding agrees with the C expression
`(incarnation << INDEX_BITS) | (index + 1)` (after `uint32_t` truncation of
the shifted incarnation): the two fields occupy disjoint bit ranges. -/
theorem mkHandle_eq_or (inc idx : Nat) (h : idx + 1 ≤ MAX_INDEX) :
    mkHandle inc idx =
      ((inc % 2 ^ INCARNATION_BITS) <<< INDEX_BITS) ||| (idx + 1) := by
  have hlt : idx + 1 < 2 ^ INDEX_BITS := by
    unfold MAX_INDEX at h; omega
  rw [mkHandle, Nat.shiftLeft_eq, Nat.mul_comm,
    ← Nat.mul_add_lt_is_or hlt, Nat.mul_comm]

/-- A handle is reassembled from its decoded fields. -/
theorem handle_fields_inj (h h2 : Nat) (hlow : handleIndex1 h = handleIndex1 h2)
    (hhigh : handleInc h = handleInc h2) : h = h2 := by
  unfold handleIndex1 handleInc INDEX_BITS at *
  omega

theorem resolve_spec (r : PHRegistry) (h p : Nat)
    (he : HandleToPointer r h = some p) :
    handleIndex1 h ≠ 0 ∧
    handleInc h = r.incarnation % 2 ^ INCARNATION_BITS ∧
    r.pointers[handleIndex1 h - 1]? = some (some p) := by
  unfold HandleToPointer at he
  split_ifs at he with hi hinc
  rcases hg : r.pointers[handleIndex1 h - 1]? with _ | q
  · rw [hg] at he; cases he
  · rcases q with _ | q
    · rw [hg] at he; cases he
    · rw [hg] at he
      simp only [Option.some.injEq] at he
      refine ⟨hi, not_not.mp hinc, ?_⟩
      rw [he]

theorem resolve_of (r : PHRegistry) (h p : Nat) (hi : handleIndex1 h ≠ 0)
    (hinc : handleInc h = r.incarnation % 2 ^ INCARNATION_BITS)
    (hg : r.pointers[handleIndex1 h - 1]? = some (some p)) :
    HandleToPointer r h = some p := by
  unfold HandleToPointer
  rw [if_neg hi, if_neg (not_not.mpr hinc), hg]

theorem resolve_zero (r : PHRegistry) : HandleToPointer r 0 = none := by
  unfold HandleToPointer handleIndex1
  simp

/-- A mismatched incarnation field never resolves. -/
theorem resolve_none_of_inc_ne (r : PHRegistry) (h : Nat)
    (hinc : handleInc h ≠ r.incarnation % 2 ^ INCARNATION_BITS) :
    HandleToPointer r h = none := by
  unfold HandleToPointer
  by_cases hi : handleIndex1 h = 0
  · rw [if_pos hi]
  · rw [if_neg hi, if_pos hinc]

theorem getElem?_lt_length {α : Type} (l : List α) (i : Nat) (a : α)
    (h : l[i]? = some a) : i < l.length := by
  by_contra hc
  push_neg at hc
  rw [List.getElem?_eq_none hc] at h
  cases h

/-- A successful allocation preserves well-formedness, keeps the
incarnation, returns the encoded handle of some in-range index, resolves to
the stored reference, and leaves every previously resolvable handle
resolving to its old reference. -/
theorem alloc_spec (r : PHRegistry) (p h : Nat) (r' : PHRegistry)
    (hwf : WF r) (hal : AllocateHandleForPointer r p = some (h, r')) :
    WF r' ∧ r'.incarnation = r.incarnation ∧
    (∃ idx, idx + 1 ≤ MAX_INDEX ∧ h = mkHandle r.incarnation idx) ∧
    HandleToPointer r' h = some p ∧
    (∀ h0 p0, HandleToPointer r h0 = some p0 →
      HandleToPointer r' h0 = some p0) := by
  obtain ⟨hlen, hflt, hfno, hnd⟩ := hwf
  unfold AllocateHandleForPointer at hal
  rcases hfl : r.freeList with _ | ⟨i, rest⟩ <;> rw [hfl] at hal
  · split_ifs at hal with hce
    simp only [Option.some.injEq, Prod.mk.injEq] at hal
    obtain ⟨hh, hr⟩ := hal
    subst hh; subst hr
    have hidx : r.pointers.length + 1 ≤ MAX_INDEX := hce
    refine ⟨⟨?_, ?_, ?_, ?_⟩, rfl, ⟨r.pointers.length, hidx, rfl⟩, ?_, ?_⟩
    · simpa using hce
    · intro j hj; simp at hj
    · intro j hj; simp at hj
    · simp
    · refine resolve_of _ _ _ ?_ ?_ ?_
      · rw [handleIndex1_mkHandle _ _ hidx]; omega
      · rw [handleInc_mkHandle _ _ hidx]
      · rw [handleIndex1_mkHandle _ _ hidx]
        simp only [Nat.add_sub_cancel]
        exact List.getElem?_concat_length r.pointers (some p)
    · intro h0 p0 h0res
      obtain ⟨hi0, hinc0, hg0⟩ := resolve_spec r h0 p0 h0res
      refine resolve_of _ _ _ hi0 hinc0 ?_
      simp only
      rw [List.getElem?_append_left (getElem?_lt_length _ _ _ hg0)]
      exact hg0
  · simp only [Option.some.injEq, Prod.mk.injEq] at hal
    obtain ⟨hh, hr⟩ := hal
    subst hh; subst hr
    have hmem : i ∈ r.freeList := by rw [hfl]; exact List.mem_cons_self i rest
    have hilt : i < r.pointers.length := hflt i hmem
    have hidx : i + 1 ≤ MAX_INDEX := by omega
    have hnotmem : i ∉ rest := by
      rw [hfl] at hnd; exact (List.nodup_cons.mp hnd).1
    refine ⟨⟨?_, ?_, ?_, ?_⟩, rfl, ⟨i, hidx, rfl⟩, ?_, ?_⟩
    · simp only [List.length_set]; exact hlen
    · intro j hj
      simp only [List.length_set]
      exact hflt j (by rw [hfl]; exact List.mem_cons_of_mem i hj)
    · intro j hj
      have hji : i ≠ j := fun he => hnotmem (he ▸ hj)
      simp only [List.getElem?_set_ne hji]
      exact hfno j (by rw [hfl]; exact List.mem_cons_of_mem i hj)
    · rw [hfl] at hnd; exact (List.nodup_cons.mp hnd).2
    · refine resolve_of _ _ _ ?_ ?_ ?_
      · rw [handleIndex1_mkHandle _ _ hidx]; omega
      · rw [handleInc_mkHandle _ _ hidx]
      · rw [handleIndex1_mkHandle _ _ hidx]
        simpa using List.getElem?_set_eq_of_lt (some p) hilt
    · intro h0 p0 h0res
      obtain ⟨hi0, hinc0, hg0⟩ := resolve_spec r h0 p0 h0res
      have hne : i ≠ handleIndex1 h0 - 1 := by
        intro he
        rw [← he] at hg0
        rw [hfno i hmem] at hg0
        cases hg0
      refine resolve_of _ _ _ hi0 hinc0 ?_
      simp only [List.getElem?_set_ne hne]
      exact hg0

/-- Releasing a handle preserves well-formedness, keeps the incarnation,
and leaves every other resolvable handle resolving to its old reference. -/
theorem remove_spec (r : PHRegistry) (h2 : Nat) (hwf : WF r) :
    WF (RemoveHandle r h2) ∧
    (RemoveHandle r h2).incarnation = r.incarnation ∧
    (∀ h p, h ≠ h2 → HandleToPointer r h = some p →
      HandleToPointer (RemoveHandle r h2) h = some p) := by
  obtain ⟨hlen, hflt, hfno, hnd⟩ := hwf
  unfold RemoveHandle
  rcases hres2 : HandleToPointer r h2 with _ | q
  · exact ⟨⟨hlen, hflt, hfno, hnd⟩, rfl, fun h p _ hres => hres⟩
  · obtain ⟨hi2, hinc2, hg2⟩ := resolve_spec r h2 q hres2
    have hlt2 : handleIndex1 h2 - 1 < r.pointers.length :=
      getElem?_lt_length _ _ _ hg2
    have hfree2 : handleIndex1 h2 - 1 ∉ r.freeList := by
      intro hmem
      rw [hfno _ hmem] at hg2
      cases hg2
    refine ⟨⟨?_, ?_, ?_, ?_⟩, rfl, ?_⟩
    · simpa using hlen
    · intro j hj
      simp only [List.length_set]
      rcases List.mem_cons.mp hj with hj | hj
      · omega
      · exact hflt j hj
    · intro j hj
      rcases List.mem_cons.mp hj with hj | hj
      · subst hj
        simpa using List.getElem?_set_eq_of_lt none hlt2
      · have hne : handleIndex1 h2 - 1 ≠ j := fun he => hfree2 (he ▸ hj)
        simp only [List.getElem?_set_ne hne]
        exact hfno j hj
    · exact List.nodup_cons.mpr ⟨hfree2, hnd⟩
    · intro h p hne hres
      obtain ⟨hi, hinc, hg⟩ := resolve_spec r h p hres
      have hneidx : handleIndex1 h2 - 1 ≠ handleIndex1 h - 1 := by
        intro he
        exact hne (handle_fields_inj h h2 (by omega) (by rw [hinc, hinc2]))
      refine resolve_of _ _ _ hi hinc ?_
      simp only [List.getElem?_set_ne hneidx]
      exact hg

/-- One registry operation preserves well-formedness and the resolution of
every handle it does not release. -/
theorem applyOp_preserve (r : PHRegistry) (op : RegOp) (hwf : WF r) :
    WF (applyOp r op) ∧
    ∀ h p, HandleToPointer r h = some p →
      (∀ h2, op = RegOp.release h2 → h2 ≠ h) →
      HandleToPointer (applyOp r op) h = some p := by
  rcases op with p' | h2
  · rcases hal : AllocateHandleForPointer r p' with _ | ⟨h', r'⟩
    · simp only [applyOp, hal]
      exact ⟨hwf, fun h p hres _ => hres⟩
    · simp only [applyOp, hal]
      obtain ⟨hwf', _, _, _, hpres⟩ := alloc_spec r p' h' r' hwf hal
      exact ⟨hwf', fun h p hres _ => hpres h p hres⟩
  · simp only [applyOp]
    obtain ⟨hwf', _, hpres⟩ := remove_spec r h2 hwf
    exact ⟨hwf', fun h p hres hno => hpres h p (hno h2 rfl).symm hres⟩

/-- Resolution stability: a resolvable handle keeps resolving to its
reference across any sequence of operations that does not release it. -/
theorem applyOps_preserve (ops : List RegOp) :
    ∀ r : PHRegistry, WF r → ∀ h p, HandleToPointer r h = some p →
      (∀ h2, RegOp.release h2 ∈ ops → h2 ≠ h) →
      HandleToPointer (applyOps r ops) h = some p ∧ WF (applyOps r ops) := by
  induction ops with
  | nil => exact fun r hwf h p hres _ => ⟨hres, hwf⟩
  | cons op rest ih =>
      intro r hwf h p hres hno
      obtain ⟨hwf', hpres⟩ := applyOp_preserve r op hwf
      have hres' := hpres h p hres
        (fun h2 he => hno h2 (by rw [he]; exact List.mem_cons_self _ _))
      exact ih (applyOp r op) hwf' h p hres'
        (fun h2 hmem => hno h2 (List.mem_cons_of_mem op hmem))

theorem alloc_incarnation (r : PHRegistry) (p h : Nat) (r' : PHRegistry)
    (hal : AllocateHandleForPointer r p = some (h, r')) :
    r'.incarnation = r.incarnation := by
  unfold AllocateHandleForPointer at hal
  rcases hfl : r.freeList with _ | ⟨i, rest⟩ <;> rw [hfl] at hal
  · split_ifs at hal
    simp only [Option.some.injEq, Prod.mk.injEq] at hal
    rw [← hal.2]
  · simp only [Option.some.injEq, Prod.mk.injEq] at hal
    rw [← hal.2]

theorem remove_incarnation (r : PHRegistry) (h2 : Nat) :
    (RemoveHandle r h2).incarnation = r.incarnation := by
  unfold RemoveHandle
  rcases hres : HandleToPointer r h2 with _ | q <;> simp only [hres]

theorem applyOp_incarnation (r : PHRegistry) (op : RegOp) :
    (applyOp r op).incarnation = r.incarnation := by
  rcases op with p | h2
  · rcases hal : AllocateHandleForPointer r p with _ | ⟨h', r'⟩
    · simp only [applyOp, hal]
    · simp only [applyOp, hal]
      exact alloc_incarnation r p h' r' hal
  · simp only [applyOp]
    exact remove_incarnation r h2

theorem applyOps_incarnation (ops : List RegOp) :
    ∀ r : PHRegistry, (applyOps r ops).incarnation = r.incarnation := by
  induction ops with
  | nil => exact fun r => rfl
  | cons op rest ih =>
      intro r
      calc (applyOps (applyOp r op) rest).incarnation
          = (applyOp r op).incarnation := ih (applyOp r op)
        _ = r.incarnation := applyOp_incarnation r op

/-- A handle whose incarnation field differs from a registry's incarnation
is permanently unresolvable there: no sequence of operations on that
registry can make it resolve. -/
theorem resolve_applyOps_none (r : PHRegistry) (ops : List RegOp) (h : Nat)
    (hinc : handleInc h ≠ r.incarnation % 2 ^ INCARNATION_BITS) :
    HandleToPointer (applyOps r ops) h = none := by
  refine resolve_none_of_inc_ne _ _ ?_
  rw [applyOps_incarnation ops r]
  exact hinc

/-! ## Claim C2 -/

/-- C2: in the handle registry, every successful allocation returns the
handle `(incarnation << INDEX_BITS) | (index + 1)` of the allocated index
with `INDEX_BITS = 22`, so `0` is never a valid allocated handle;
`HandleToPointer` finds no reference for handle `0`; and every handle
returned by a successful allocation resolves to its original reference
across any further allocations and releases that do not release it. -/
theorem C2_handle_registry :
    INDEX_BITS = 22 ∧
    (∀ r p h r', WF r → AllocateHandleForPointer r p = some (h, r') →
      (∃ idx, idx + 1 ≤ MAX_INDEX ∧ h = mkHandle r.incarnation idx) ∧
      h ≠ 0 ∧ HandleToPointer r' h = some p) ∧
    (∀ r : PHRegistry, HandleToPointer r 0 = none) ∧
    (∀ r h p ops, WF r → HandleToPointer r h = some p →
      (∀ h2, RegOp.release h2 ∈ ops → h2 ≠ h) →
      HandleToPointer (applyOps r ops) h = some p) := by
  refine ⟨rfl, ?_, resolve_zero, ?_⟩
  · intro r p h r' hwf hal
    obtain ⟨_, _, hex, hres, _⟩ := alloc_spec r p h r' hwf hal
    obtain ⟨idx, hidx, hh⟩ := hex
    exact ⟨⟨idx, hidx, hh⟩, hh ▸ mkHandle_ne_zero _ _, hres⟩
  · intro r h p ops hwf hres hno
    exact (applyOps_preserve ops r hwf h p hres hno).1

/-- Witness for C2 at a concrete registry: the handle allocated for
reference 5 at index 0 of an incarnation-1 registry still resolves after a
further allocation and the release of a different handle. -/
theorem C2_witness :
    WF reg1 ∧
    HandleToPointer reg1 (mkHandle 1 0) = some 5 ∧
    HandleToPointer
      (applyOps reg1 [RegOp.alloc 7, RegOp.release (mkHandle 1 1)])
      (mkHandle 1 0) = some 5 ∧
    HandleToPointer reg1 0 = none := by
  refine ⟨by decide, by decide, ?_, ?_⟩
  · refine C2_handle_registry.2.2.2 reg1 (mkHandle 1 0) 5
      [RegOp.alloc 7, RegOp.release (mkHandle 1 1)] (by decide) (by decide) ?_
    intro h2 hmem hne
    rw [hne] at hmem
    revert hmem
    decide
  · exact C2_handle_registry.2.2.1 reg1

/-! ## Claim C9 -/

/-- C9: the claim that the normalized subtree-restriction path never
contains a `..` component fails on the code: when the buffer is already at
the share root, the `..` branch finds no `/` to truncate at and control
falls through to the append, so `url->path = ".."` normalizes to the
rootdir `"/.."`, which keeps the `..` component and escapes the share root.
(The in-code comment "If not already at root, go up one level" and spec §6
describe the intended clamping behaviour.) -/
theorem C9_normalizer_escapes_root :
    normalizeSegs ['.', '.'] = [['.', '.']] ∧
    rootdirOf ['.', '.'] = some ['/', '.', '.'] ∧
    ['.', '.'] ∈ normalizeSegs ['.', '.'] ∧
    rootdirOf ['.', '.', '/', 'a'] = some ['/', '.', '.', '/', 'a'] := by
  refine ⟨by decide, by decide, by decide, by decide⟩

/-! ## Claim C10 -/

/-- C10: `statfs` with no session returns `-ENODEV` unchanged — the state
(and so the log, the prompt script and the init script) is untouched, no
reconnect prompt and no fresh connection happens, whatever the
configuration; whereas the entry block every other operation runs does
attempt one fresh connection when no session exists. -/
theorem C10_statfs_never_reconnects :
    (∀ cfg st rcs, st.g.fsd = none →
      statfsModel cfg st rcs = PathOpOut.ret (-ENODEV) st) ∧
    (∀ cfg st b is, st.g.fsd = none → cfg.reconnect = false →
      st.inits = b :: is →
      (opEntry cfg st).2.log = st.log ++ [Ev.initAtt]) := by
  constructor
  · intro cfg st rcs h
    simp only [statfsModel, h]
  · intro cfg st b is hfsd hrec hinits
    simp only [opEntry, hfsd, hrec, hinits, Bool.false_eq_true, if_false,
      logEv]
    rcases b with _ | _ <;> simp

/-- Witness for C10: a session-less state with reconnection enabled. -/
theorem C10_witness :
    statfsModel cfgRec stNone [0] = PathOpOut.ret (-ENODEV) stNone ∧
    (opEntry cfgNoRec stNone).2.log = stNone.log ++ [Ev.initAtt] := by
  exact ⟨C10_statfs_never_reconnects.1 cfgRec stNone [0] rfl,
    C10_statfs_never_reconnects.2 cfgNoRec stNone true [] rfl rfl rfl⟩

/-! ## Claim C5 -/

/-- C5: with `RECONNECTREQ` not set, a transport fault makes the in-flight
call return `-ENODEV` (shown for the shared path-operation loop and for the
read loop), and a subsequent call that finds no session makes exactly one
implicit init attempt with no prompt — `-ENODEV` if it fails, proceed if it
succeeds. -/
theorem C5_reconnect_disabled :
    (∀ cfg st rcs, cfg.reconnect = false →
      pathOpLoop cfg st (-1 :: rcs) =
        PathOpOut.ret (-ENODEV) { st with g := { st.g with fsd := none } }) ∧
    (∀ cfg path maxRead st rw opens rest, cfg.reconnect = false →
      rw.size ≠ 0 →
      innerRead cfg path maxRead st rw opens (-1 :: rest) =
        RdOut.fatal (-ENODEV)
          { logEv st (Ev.readC rw.localRef (min rw.size maxRead)) with
            g := { st.g with fsd := none } }) ∧
    (∀ cfg st b is, cfg.reconnect = false → st.g.fsd = none →
      st.inits = b :: is →
      (opEntry cfg st).2.log = st.log ++ [Ev.initAtt] ∧
      (opEntry cfg st).2.prompts = st.prompts ∧
      (b = false → (opEntry cfg st).1 = some (-ENODEV)) ∧
      (b = true → (opEntry cfg st).1 = none)) := by
  refine ⟨?_, ?_, ?_⟩
  · intro cfg st rcs hrec
    simp only [pathOpLoop]
    rw [if_neg (by decide), if_pos (by decide)]
    unfold handleConnectionFault
    rw [hrec]
    simp
  · intro cfg path maxRead st rw opens rest hrec hsz
    simp only [innerRead, hsz]
    norm_num
    unfold handleConnectionFault
    rw [hrec]
    simp [logEv]
  · intro cfg st b is hrec hfsd hinits
    simp only [opEntry, hfsd, hrec, Bool.false_eq_true, if_false, hinits,
      logEv]
    rcases b with _ | _ <;> simp

/-- Witness for C5: concrete faulting call and concrete session-less entry
with reconnection disabled. -/
theorem C5_witness :
    pathOpLoop cfgNoRec st1 [-1] =
      PathOpOut.ret (-ENODEV) ⟨⟨none, 2⟩, [true], [true], []⟩ ∧
    (opEntry cfgNoRec stNone).2.log = [Ev.initAtt] ∧
    (opEntry cfgNoRec stNone).1 = none := by
  refine ⟨C5_reconnect_disabled.1 cfgNoRec st1 [] rfl, ?_, ?_⟩
  · exact (C5_reconnect_disabled.2.2 cfgNoRec stNone true [] rfl rfl rfl).1
  · exact (C5_reconnect_disabled.2.2 cfgNoRec stNone true [] rfl rfl
      rfl).2.2.2 rfl

/-! ## Claim C1 -/

/-- Outcome of the prompt-and-reinit loop: on success the global state is
exactly the effect of one successful init at some counter value at least the
starting one; on failure the session stays absent and the counter has not
decreased. -/
theorem reconnectLoop_spec (cfg : Config) :
    ∀ (ps : List Bool) (g : Glob) (is : List Bool) (log : List Ev),
      ((reconnectLoop cfg g ps is log).1 = true →
        ∃ n, g.incCounter ≤ n ∧
          (reconnectLoop cfg g ps is log).2.1 =
            initEffect cfg { g with incCounter := n }) ∧
      ((reconnectLoop cfg g ps is log).1 = false →
        (reconnectLoop cfg g ps is log).2.1.fsd = g.fsd ∧
        g.incCounter ≤ (reconnectLoop cfg g ps is log).2.1.incCounter) := by
  intro ps
  induction ps with
  | nil =>
      intro g is log
      refine ⟨fun h => ?_, fun _ => ⟨rfl, le_refl _⟩⟩
      simp [reconnectLoop] at h
  | cons p ps ih =>
      intro g is log
      rcases p with _ | _
      · refine ⟨fun h => ?_, fun _ => ⟨rfl, le_refl _⟩⟩
        simp [reconnectLoop] at h
      · rcases is with _ | ⟨i, is'⟩
        · refine ⟨fun h => ?_, fun _ => ⟨rfl, le_refl _⟩⟩
          simp [reconnectLoop] at h
        · rcases i with _ | _
          · have hih := ih { g with incCounter := g.incCounter + 1 } is'
              (log ++ [Ev.prompt] ++ [Ev.initAtt])
            constructor
            · intro h
              have h' : (reconnectLoop cfg
                  { g with incCounter := g.incCounter + 1 } ps is'
                  (log ++ [Ev.prompt] ++ [Ev.initAtt])).1 = true := h
              obtain ⟨n, hn, he⟩ := hih.1 h'
              have hn' : g.incCounter + 1 ≤ n := hn
              exact ⟨n, by omega, he⟩
            · intro h
              have h' : (reconnectLoop cfg
                  { g with incCounter := g.incCounter + 1 } ps is'
                  (log ++ [Ev.prompt] ++ [Ev.initAtt])).1 = false := h
              obtain ⟨h1, h2⟩ := hih.2 h'
              have h2' : g.incCounter + 1 ≤ (reconnectLoop cfg
                  { g with incCounter := g.incCounter + 1 } ps is'
                  (log ++ [Ev.prompt] ++ [Ev.initAtt])).2.1.incCounter := h2
              refine ⟨h1, ?_⟩
              show g.incCounter ≤ (reconnectLoop cfg
                { g with incCounter := g.incCounter + 1 } ps is'
                (log ++ [Ev.prompt] ++ [Ev.initAtt])).2.1.incCounter
              omega
          · refine ⟨fun _ => ⟨g.incCounter, le_refl _, rfl⟩, fun h => ?_⟩
            simp [reconnectLoop] at h

/-- C4: on a transport fault the session object is torn down (no recovery
leaves no session), and any session present afterwards is a fresh one: empty
registry, incarnation at least the pre-fault counter, and the same read-only
flag and subtree-restriction path as the faulted session (both are
recomputed from the retained mount configuration); every handle the old
registry resolved is permanently unresolvable against the new registry
(under any further operations), provided the old and new incarnations
differ in their low `INCARNATION_BITS` bits (the spec's documented
wrap-around caveat). -/
theorem C4_fault_teardown (cfg : Config) (st : MState) (fs : FS)
    (_hfs : st.g.fsd = some fs) (hrd : fs.rdonly = cfg.readonly)
    (hroot : fs.rootdir = rootdirOf cfg.urlPath) :
    ((handleConnectionFault cfg st).1 = false →
      (handleConnectionFault cfg st).2.g.fsd = none) ∧
    (∀ fs', (handleConnectionFault cfg st).2.g.fsd = some fs' →
      fs'.phr.pointers = [] ∧ fs'.phr.freeList = [] ∧
      st.g.incCounter ≤ fs'.phr.incarnation ∧
      fs'.rdonly = fs.rdonly ∧ fs'.rootdir = fs.rootdir ∧
      (∀ h p ops, HandleToPointer fs.phr h = some p →
        fs.phr.incarnation % 2 ^ INCARNATION_BITS ≠
          fs'.phr.incarnation % 2 ^ INCARNATION_BITS →
        HandleToPointer (applyOps fs'.phr ops) h = none)) := by
  rcases hrec : cfg.reconnect with _ | _
  · have hcf : handleConnectionFault cfg st =
        (false, { st with g := { st.g with fsd := none } }) := by
      unfold handleConnectionFault
      rw [hrec]
      simp
    rw [hcf]
    exact ⟨fun _ => rfl, fun fs' h => by cases h⟩
  · have hcf : handleConnectionFault cfg st =
        ((reconnectLoop cfg { st.g with fsd := none } st.prompts st.inits
            st.log).1,
         { g := (reconnectLoop cfg { st.g with fsd := none } st.prompts
              st.inits st.log).2.1,
           prompts := (reconnectLoop cfg { st.g with fsd := none } st.prompts
              st.inits st.log).2.2.1,
           inits := (reconnectLoop cfg { st.g with fsd := none } st.prompts
              st.inits st.log).2.2.2.1,
           log := (reconnectLoop cfg { st.g with fsd := none } st.prompts
              st.inits st.log).2.2.2.2 }) := by
      unfold handleConnectionFault
      rw [hrec]
      simp
    rw [hcf]
    have hspec := reconnectLoop_spec cfg st.prompts
      { st.g with fsd := none } st.inits st.log
    constructor
    · intro h
      exact (hspec.2 h).1
    · intro fs' hfs'
      rcases hb : (reconnectLoop cfg { st.g with fsd := none } st.prompts
          st.inits st.log).1 with _ | _
      · obtain ⟨h1, _⟩ := hspec.2 hb
        simp only at hfs'
        rw [h1] at hfs'
        cases hfs'
      · obtain ⟨n, hn, he⟩ := hspec.1 hb
        simp only at hfs'
        rw [he] at hfs'
        simp only [initEffect, Option.some.injEq] at hfs'
        subst hfs'
        refine ⟨rfl, rfl, hn, hrd.symm, hroot.symm, ?_⟩
        intro h p ops hres hne
        obtain ⟨_, hinc, _⟩ := resolve_spec fs.phr h p hres
        exact resolve_applyOps_none _ ops h (by rw [hinc]; exact hne)

/-- Witness for C4: the concrete faulted session `st3` (registry holding
reference 7 under incarnation 1) recovers into `fs6`; the old handle no
longer resolves even after a new allocation, and the configuration is
retained. -/
theorem C4_witness :
    HandleToPointer (applyOps fs6.phr [RegOp.alloc 9]) (mkHandle 1 0) =
      none ∧
    fs6.rdonly = fs3.rdonly ∧ fs6.rootdir = fs3.rootdir ∧
    fs6.phr.pointers = [] ∧ 2 ≤ fs6.phr.incarnation := by
  have hc := C4_fault_teardown cfgRec st3 fs3 rfl rfl (by decide)
  have h2 := hc.2 fs6 (by decide)
  exact ⟨h2.2.2.2.2.2 (mkHandle 1 0) 7 [RegOp.alloc 9] (by decide)
      (by decide),
    h2.2.2.2.1, h2.2.2.2.2.1, h2.1, h2.2.2.1⟩

/-! ## Claim C6 -/

/-- C6 (amended): with handle recovery disabled, the stream operation whose
`smb2_read`/`smb2_write` hits the transport fault fails with `-EIO` when the
connection manager recovers (and `-ENODEV` when it does not); a subsequent
stream call whose `fi->fh` no longer resolves (stale incarnation after a
fault) fails with `-EINVAL`, not `-EIO`.  Either way the caller must
re-open. -/
theorem C6_stale_handle_errors :
    (∀ cfg path maxRead st rw opens rest, cfg.handlesRcv = false →
      rw.size ≠ 0 →
      innerRead cfg path maxRead st rw opens (-1 :: rest) =
        if (handleConnectionFault cfg
            (logEv st (Ev.readC rw.localRef (min rw.size maxRead)))).1 then
          RdOut.fatal (-Eio) (handleConnectionFault cfg
            (logEv st (Ev.readC rw.localRef (min rw.size maxRead)))).2
        else
          RdOut.fatal (-ENODEV) (handleConnectionFault cfg
            (logEv st (Ev.readC rw.localRef (min rw.size maxRead)))).2) ∧
    (∀ cfg path maxW st rw opens rest, cfg.handlesRcv = false →
      rw.size ≠ 0 →
      innerWrite cfg path maxW st rw opens (-1 :: rest) =
        if (handleConnectionFault cfg
            (logEv st (Ev.writeC rw.localRef (min rw.size rw.chunk)))).1 then
          WrOut.fatal (-Eio) (handleConnectionFault cfg
            (logEv st (Ev.writeC rw.localRef (min rw.size rw.chunk)))).2
        else
          WrOut.fatal (-ENODEV) (handleConnectionFault cfg
            (logEv st (Ev.writeC rw.localRef (min rw.size rw.chunk)))).2) ∧
    (∀ cfg path maxRead st fs fiFh size lseeks opens reads,
      st.g.fsd = some fs → HandleToPointer fs.phr fiFh = none →
      readModel cfg path maxRead st fiFh size lseeks opens reads =
        RWTop.early (-EINVAL) st) := by
  refine ⟨?_, ?_, ?_⟩
  · intro cfg path maxRead st rw opens rest hrcv hsz
    simp only [innerRead, hsz]
    norm_num
    rw [hrcv]
    simp
  · intro cfg path maxW st rw opens rest hrcv hsz
    simp only [innerWrite, hsz]
    norm_num
    rw [hrcv]
    simp
  · intro cfg path maxRead st fs fiFh size lseeks opens reads hfs hres
    simp only [readModel, rwEntry, hfs, readOuter, hres]

/-- Counterexample for C6 as stated: a read referencing a stale handle
after a fault (incarnation 1 handle against the incarnation 2 registry of
the reconnected session) fails with `-EINVAL = -22`, not with the claimed
I/O error `-Eio = -5`. -/
theorem C6_counterexample :
    readModel cfgNoRcv ['f'] 1 st6 (mkHandle 1 0) 4 [0] [] [] =
      RWTop.early (-EINVAL) st6 ∧
    HandleToPointer fs6.phr (mkHandle 1 0) = none ∧
    (-EINVAL : Int) ≠ -Eio := by
  exact ⟨by decide, by decide, by decide⟩

/-- Witness for C6 (amended): the in-flight faulting read under
`NOHANDLESRCV` returns `-EIO` after successful recovery; a later read with
the stale handle returns `-EINVAL`. -/
theorem C6_witness :
    innerRead cfgNoRcv ['f'] 1 st3 ⟨mkHandle 1 0, 7, 1, 0, 0, 0, 0⟩ [] [-1] =
      RdOut.fatal (-Eio) st6w ∧
    readModel cfgNoRcv ['f'] 1 st6 (mkHandle 1 0) 2 [0] [] [] =
      RWTop.early (-EINVAL) st6 := by
  constructor
  · rw [C6_stale_handle_errors.1 cfgNoRcv ['f'] 1 st3
      ⟨mkHandle 1 0, 7, 1, 0, 0, 0, 0⟩ [] [] rfl (by decide)]
    decide
  · exact C6_stale_handle_errors.2.2 cfgNoRcv ['f'] 1 st6 fs6 (mkHandle 1 0)
      2 [0] [] [] rfl (by decide)

/-! ## Claim C3 -/

/-- C3: evaluation of `smb2fs_read` at the claim's scenario (handle
recovery and reconnection enabled, one transport fault, recovery and
re-open succeed).  The re-open does store the new handle
`mkHandle 2 0` in `fi->fh` — but the loop then keeps issuing `smb2_read`
with the reference 7 it resolved before the fault (the pointer freed with
the old session), never with the newly opened reference 9: the log's three
post-recovery reads all carry reference 7, refuting "the calling operation
proceeds using that new handle value" (the negative return code is also
added into `result` and `size`, which is why 4 successful one-byte reads
of a 2-byte request yield result 2).  `smb2fs_ftruncate` by contrast
re-resolves `fi->fh` on retry, as the claim describes. -/
theorem C3_read_recovery_stale_pointer :
    readModel cfgRec ['f'] 1 st3 (mkHandle 1 0) 2 [0] [(some 9, 0)]
      [-1, 1, 1, 1] = RWTop.normal 2 st3' (mkHandle 2 0) ∧
    st3'.g.fsd = some ⟨⟨[some 9], 2, []⟩, false, none⟩ ∧
    HandleToPointer (⟨[some 9], 2, []⟩ : PHRegistry) (mkHandle 2 0) =
      some 9 ∧
    mkHandle 2 0 ≠ mkHandle 1 0 ∧
    st3'.log = log3 ∧
    Ev.readC 9 1 ∉ log3 ∧
    Ev.readC 7 1 ∈ log3.drop 5 := by
  exact ⟨by decide, by decide, by decide, by decide, rfl, by decide,
    by decide⟩

/-! ## Claim C7 -/

/-- C7: every write call starts with chunk size 64 KiB capped at the
negotiated maximum; after 4 consecutive successful writes the chunk doubles
(capped) with the counter reset — in particular, from the initial chunk
with `max_write_size ≥ 131072` four consecutive successes reach 131072 —
and a failed write leaves chunk size and success counter untouched (the
concrete faulting run below carries `chunk` and `scnt` through recovery
unchanged). -/
theorem C7_adaptive_chunk :
    (∀ maxW, writeInitChunk maxW = min 65536 maxW) ∧
    (∀ maxW, 131072 ≤ maxW →
      (fun s : Nat × Nat => chunkStep maxW s.1 s.2)^[4]
        (writeInitChunk maxW, 0) = (131072, 0)) ∧
    (∀ maxW chunk scnt, scnt + 1 < SUCCESS_THRESHOLD →
      chunkStep maxW chunk scnt = (chunk, scnt + 1)) ∧
    (∀ maxW chunk, chunkStep maxW chunk 3 = (min (chunk * 2) maxW, 0)) ∧
    (∀ maxW chunk scnt,
      innerWrite cfgRec ['f'] maxW st3
        ⟨mkHandle 1 0, 7, 1, 0, 0, 0, 0, chunk, scnt⟩ [(some 9, 0)] [-1] =
      WrOut.outOfScript (st7' chunk)
        ⟨mkHandle 2 0, 7, 2, -1, 0, 0, -1, chunk, scnt⟩) := by
  refine ⟨fun maxW => rfl, ?_, ?_, ?_, fun maxW chunk scnt => rfl⟩
  · intro maxW h
    have h1 : writeInitChunk maxW = 65536 := by
      unfold writeInitChunk INITIAL_CHUNK
      omega
    rw [h1]
    have hs1 : chunkStep maxW 65536 0 = (65536, 1) := by
      unfold chunkStep SUCCESS_THRESHOLD
      norm_num
    have hs2 : chunkStep maxW 65536 1 = (65536, 2) := by
      unfold chunkStep SUCCESS_THRESHOLD
      norm_num
    have hs3 : chunkStep maxW 65536 2 = (65536, 3) := by
      unfold chunkStep SUCCESS_THRESHOLD
      norm_num
    have hs4 : chunkStep maxW 65536 3 = (131072, 0) := by
      unfold chunkStep SUCCESS_THRESHOLD
      norm_num
      omega
    have key : (fun s : Nat × Nat => chunkStep maxW s.1 s.2)^[4] (65536, 0) =
        chunkStep maxW (chunkStep maxW (chunkStep maxW
          (chunkStep maxW 65536 0).1 (chunkStep maxW 65536 0).2).1
          (chunkStep maxW (chunkStep maxW 65536 0).1
            (chunkStep maxW 65536 0).2).2).1
          (chunkStep maxW (chunkStep maxW (chunkStep maxW 65536 0).1
            (chunkStep maxW 65536 0).2).1
          (chunkStep maxW (chunkStep maxW 65536 0).1
            (chunkStep maxW 65536 0).2).2).2 := rfl
    rw [key, hs1]
    simp only
    rw [hs2]
    simp only
    rw [hs3]
    simp only
    rw [hs4]
  · intro maxW chunk scnt h
    unfold chunkStep
    rw [if_neg (by omega)]
  · intro maxW chunk
    unfold chunkStep SUCCESS_THRESHOLD
    norm_num

/-- Witness for C7 at `max_write_size = 131072`. -/
theorem C7_witness :
    (fun s : Nat × Nat => chunkStep 131072 s.1 s.2)^[4]
      (writeInitChunk 131072, 0) = (131072, 0) ∧
    chunkStep 131072 65536 0 = (65536, 1) := by
  exact ⟨C7_adaptive_chunk.2.1 131072 (by decide),
    C7_adaptive_chunk.2.2.1 131072 65536 0 (by decide)⟩

/-! ## Claim C8 -/

/-- Whenever the read call returns through the end of the outer loop body
(a `normal` result), the last protocol interaction logged is a drain. -/
theorem readOuter_normal_drain (cfg : Config) (path : List Char)
    (maxRead : Nat) :
    ∀ (fuel : Nat) (st : MState) (fiFh size : Nat) (lseeks : List Int)
      (opens : List (Option Nat × Int)) (reads : List Int) (r : Int)
      (st' : MState) (fh : Nat),
      readOuter cfg path maxRead fuel st fiFh size lseeks opens reads =
        RWTop.normal r st' fh →
      ∃ pre, st'.log = pre ++ [Ev.drain] := by
  intro fuel
  induction fuel with
  | zero =>
      intro st fiFh size lseeks opens reads r st' fh h
      simp only [readOuter] at h
      exact RWTop.noConfusion h
  | succ fuel ih =>
      intro st fiFh size lseeks opens reads r st' fh h
      simp only [readOuter] at h
      rcases hfsd : st.g.fsd with _ | fs
      · rw [hfsd] at h
        exact RWTop.noConfusion h
      · rcases hres : HandleToPointer fs.phr fiFh with _ | ref
        · simp only [hfsd, hres] at h
          exact RWTop.noConfusion h
        · rcases lseeks with _ | ⟨lk, lrest⟩
          · simp only [hfsd, hres] at h
            exact RWTop.noConfusion h
          · simp only [hfsd, hres] at h
            by_cases hlk : lk < 0
            · rw [if_pos hlk] at h
              exact RWTop.noConfusion h
            · rw [if_neg hlk] at h
              rcases hin : innerRead cfg path maxRead
                  (logEv st (Ev.lseekC ref)) ⟨fiFh, ref, size, 0, 0, 0, 0⟩
                  opens reads with ⟨c, st1⟩ | ⟨st1, rw1, opens1, reads1⟩ |
                  ⟨st1, rw1⟩
              · simp only [hin] at h
                exact RWTop.noConfusion h
              · simp only [hin] at h
                by_cases hrc : rw1.rc < 0
                · rw [if_pos hrc] at h
                  exact ih _ _ _ _ _ _ _ _ _ h
                · rw [if_neg hrc] at h
                  cases h
                  exact ⟨st1.log, rfl⟩
              · simp only [hin] at h
                exact RWTop.noConfusion h

/-- Write-side analogue of `readOuter_normal_drain`. -/
theorem writeOuter_normal_drain (cfg : Config) (path : List Char)
    (maxW : Nat) (sockOk : Bool) :
    ∀ (fuel : Nat) (st : MState) (fiFh size : Nat) (lseeks : List Int)
      (opens : List (Option Nat × Int)) (writes : List Int) (r : Int)
      (st' : MState) (fh : Nat),
      writeOuter cfg path maxW sockOk fuel st fiFh size lseeks opens
        writes = RWTop.normal r st' fh →
      ∃ pre, st'.log = pre ++ [Ev.drain] := by
  intro fuel
  induction fuel with
  | zero =>
      intro st fiFh size lseeks opens writes r st' fh h
      simp only [writeOuter] at h
      exact RWTop.noConfusion h
  | succ fuel ih =>
      intro st fiFh size lseeks opens writes r st' fh h
      simp only [writeOuter] at h
      rcases hfsd : st.g.fsd with _ | fs
      · rw [hfsd] at h
        exact RWTop.noConfusion h
      · rcases hres : HandleToPointer fs.phr fiFh with _ | ref
        · simp only [hfsd, hres] at h
          exact RWTop.noConfusion h
        · rcases lseeks with _ | ⟨lk, lrest⟩
          · simp only [hfsd, hres] at h
            exact RWTop.noConfusion h
          · simp only [hfsd, hres] at h
            by_cases hlk : lk < 0
            · rw [if_pos hlk] at h
              exact RWTop.noConfusion h
            · rw [if_neg hlk] at h
              rcases sockOk with _ | _
              · rw [if_pos (by decide)] at h
                exact RWTop.noConfusion h
              · rw [if_neg (by decide)] at h
                rcases hin : innerWrite cfg path maxW
                    (logEv st (Ev.lseekC ref))
                    ⟨fiFh, ref, size, 0, 0, 0, 0, writeInitChunk maxW, 0⟩
                    opens writes with ⟨c, st1⟩ |
                    ⟨st1, rw1, opens1, writes1⟩ | ⟨st1, rw1⟩
                · simp only [hin] at h
                  exact RWTop.noConfusion h
                · simp only [hin] at h
                  by_cases hrc : rw1.rc < 0
                  · rw [if_pos hrc] at h
                    exact ih _ _ _ _ _ _ _ _ _ h
                  · rw [if_neg hrc] at h
                    cases h
                    exact ⟨st1.log, rfl⟩
                · simp only [hin] at h
                  exact RWTop.noConfusion h

/-- C8: after each successful I/O unit the counters advance by one unit and
its bytes; a drain fires exactly when the updated unit count reaches 4 or
the updated byte count reaches 262144, and both counters reset after it
(shown on `serviceStep`, and on the read and write loop steps, which emit
`Ev.drain` precisely when `serviceStep` fires); and every read or write
that returns through the end of its outer loop body has performed a final
drain — its log ends with `Ev.drain` — regardless of the counters. -/
theorem C8_drain_batching :
    (∀ sc bytes n, ((serviceStep sc bytes n).1 = true ↔
      4 ≤ sc + 1 ∨ 262144 ≤ bytes + n)) ∧
    (∀ sc bytes n, (serviceStep sc bytes n).1 = true →
      (serviceStep sc bytes n).2 = (0, 0)) ∧
    (∀ sc bytes n, (serviceStep sc bytes n).1 = false →
      (serviceStep sc bytes n).2 = (sc + 1, bytes + n)) ∧
    (∀ cfg path maxRead st rw opens rc rest, 0 < rc → rw.size ≠ 0 →
      innerRead cfg path maxRead st rw opens (rc :: rest) =
        innerRead cfg path maxRead
          (if (serviceStep rw.sc rw.bytes rc.toNat).1 then
            logEv (logEv st (Ev.readC rw.localRef (min rw.size maxRead)))
              Ev.drain
          else logEv st (Ev.readC rw.localRef (min rw.size maxRead)))
          { rw with result := rw.result + rc, size := rw.size - rc.toNat,
                    sc := (serviceStep rw.sc rw.bytes rc.toNat).2.1,
                    bytes := (serviceStep rw.sc rw.bytes rc.toNat).2.2,
                    rc := rc }
          opens rest) ∧
    (∀ cfg path maxW st rw opens rc rest, 0 < rc → rw.size ≠ 0 →
      innerWrite cfg path maxW st rw opens (rc :: rest) =
        innerWrite cfg path maxW
          (if (serviceStep rw.sc rw.bytes rc.toNat).1 then
            logEv (logEv st (Ev.writeC rw.localRef (min rw.size rw.chunk)))
              Ev.drain
          else logEv st (Ev.writeC rw.localRef (min rw.size rw.chunk)))
          { rw with result := rw.result + rc, size := rw.size - rc.toNat,
                    sc := (serviceStep rw.sc rw.bytes rc.toNat).2.1,
                    bytes := (serviceStep rw.sc rw.bytes rc.toNat).2.2,
                    rc := rc,
                    chunk := (chunkStep maxW rw.chunk rw.scnt).1,
                    scnt := (chunkStep maxW rw.chunk rw.scnt).2 }
          opens rest) ∧
    (∀ cfg path maxRead fuel st fiFh size lseeks opens reads r st' fh,
      readOuter cfg path maxRead fuel st fiFh size lseeks opens reads =
        RWTop.normal r st' fh →
      st'.log.getLast? = some Ev.drain) ∧
    (∀ cfg path maxW sockOk fuel st fiFh size lseeks opens writes r st' fh,
      writeOuter cfg path maxW sockOk fuel st fiFh size lseeks opens
        writes = RWTop.normal r st' fh →
      st'.log.getLast? = some Ev.drain) := by
  refine ⟨?_, ?_, ?_, ?_, ?_, ?_, ?_⟩
  · intro sc bytes n
    unfold serviceStep
    by_cases hc : 4 ≤ sc + 1 ∨ 262144 ≤ bytes + n
    · rw [if_pos hc]
      exact ⟨fun _ => hc, fun _ => rfl⟩
    · rw [if_neg hc]
      exact ⟨fun h => Bool.noConfusion h, fun h => absurd h hc⟩
  · intro sc bytes n h
    unfold serviceStep at *
    by_cases hc : 4 ≤ sc + 1 ∨ 262144 ≤ bytes + n
    · rw [if_pos hc]
    · rw [if_neg hc] at h
      cases h
  · intro sc bytes n h
    unfold serviceStep at *
    by_cases hc : 4 ≤ sc + 1 ∨ 262144 ≤ bytes + n
    · rw [if_pos hc] at h
      cases h
    · rw [if_neg hc]
  · intro cfg path maxRead st rw opens rc rest hrc hsz
    conv_lhs => rw [innerRead.eq_def]
    rw [if_neg hsz]
    dsimp only
    rw [if_neg (show ¬ rc = 0 by omega), if_neg (show ¬ rc < -1 by omega),
      if_neg (show ¬ rc < 0 by omega)]
  · intro cfg path maxW st rw opens rc rest hrc hsz
    conv_lhs => rw [innerWrite.eq_def]
    rw [if_neg hsz]
    dsimp only
    rw [if_neg (show ¬ rc < 0 by omega), if_neg (show ¬ rc = 0 by omega)]
  · intro cfg path maxRead fuel st fiFh size lseeks opens reads r st' fh h
    obtain ⟨pre, hpre⟩ := readOuter_normal_drain cfg path maxRead fuel st
      fiFh size lseeks opens reads r st' fh h
    rw [hpre]
    exact List.getLast?_concat _
  · intro cfg path maxW sockOk fuel st fiFh size lseeks opens writes r st'
      fh h
    obtain ⟨pre, hpre⟩ := writeOuter_normal_drain cfg path maxW sockOk fuel
      st fiFh size lseeks opens writes r st' fh h
    rw [hpre]
    exact List.getLast?_concat _

/-- Witness for C8: threshold arithmetic at the boundary, one concrete
successful-read step, and a concrete completed read whose log ends with the
final drain. -/
theorem C8_witness :
    (serviceStep 3 0 1).1 = true ∧
    (serviceStep 3 0 1).2 = (0, 0) ∧
    (serviceStep 0 0 262144).1 = true ∧
    (serviceStep 1 5 1).2 = (2, 6) ∧
    innerRead cfgRec ['f'] 1 st3 ⟨mkHandle 1 0, 7, 1, 0, 0, 0, 0⟩ [] [1] =
      RdOut.done (logEv st3 (Ev.readC 7 1))
        ⟨mkHandle 1 0, 7, 0, 1, 1, 1, 1⟩ [] [] ∧
    st8'.log.getLast? = some Ev.drain := by
  refine ⟨?_, ?_, ?_, ?_, ?_, ?_⟩
  · exact (C8_drain_batching.1 3 0 1).mpr (Or.inl (by decide))
  · exact C8_drain_batching.2.1 3 0 1
      ((C8_drain_batching.1 3 0 1).mpr (Or.inl (by decide)))
  · exact (C8_drain_batching.1 0 0 262144).mpr (Or.inr (by decide))
  · exact C8_drain_batching.2.2.1 1 5 1 (by decide)
  · rw [C8_drain_batching.2.2.2.1 cfgRec ['f'] 1 st3
      ⟨mkHandle 1 0, 7, 1, 0, 0, 0, 0⟩ [] 1 [] (by decide) (by decide)]
    decide
  · exact C8_drain_batching.2.2.2.2.2.1 cfgRec ['f'] 1 1 st3 (mkHandle 1 0)
      1 [0] [] [1] 1 st8' (mkHandle 1 0) (by decide)

end Smb2fs
